import Mathlib

/-!
Shallow embedding of the study application in src/app.py.

Python strings are modelled as lists of characters (PyStr).  The helper
functions pyStrip, splitOnChar, splitFirst, pySplit1 mirror the Python
methods str.strip, str.split(sep) and str.split(sep, 1) used by the
source.  The quiz parser parse_quiz, the scoring loop, the session state
record and its transitions are translated line by line from src/app.py;
each definition's doc comment points at the source lines it embeds.
-/

/-- Python strings are sequences of characters. -/
abbrev PyStr := List Char

/-- Whitespace characters removed by Python str.strip with no argument. -/
def pyIsWs (c : Char) : Bool :=
  c == ' ' || c == '\t' || c == '\n' || c == '\r' || c == '\x0b' || c == '\x0c'

/-- Python str.strip: remove leading and trailing whitespace. -/
def pyStrip (s : PyStr) : PyStr :=
  ((s.dropWhile pyIsWs).reverse.dropWhile pyIsWs).reverse

/-- Python str.split(sep) for a one-character separator: split on every
occurrence, keeping empty segments, so that the empty string yields one
empty segment. -/
def splitOnChar (sep : Char) : PyStr → List PyStr
  | [] => [[]]
  | c :: rest =>
    match splitOnChar sep rest with
    | [] => [[]]
    | h :: t => if c == sep then [] :: h :: t else (c :: h) :: t

/-- Split at the first occurrence of sep, if any, returning the part
before and the part after it. -/
def splitFirst (sep : Char) : PyStr → Option (PyStr × PyStr)
  | [] => none
  | c :: rest =>
    if c == sep then some ([], rest)
    else (splitFirst sep rest).map (fun p => (c :: p.1, p.2))

/-- Python str.split(sep, 1): at most one split, at the first occurrence. -/
def pySplit1 (sep : Char) (s : PyStr) : List PyStr :=
  match splitFirst sep s with
  | none => [s]
  | some p => [p.1, p.2]

/-- The expression line.split(sep, 1)[1] used by parse_quiz on lines that
are known to contain a colon; the default never fires on those lines. -/
def afterColon1 (line : PyStr) : PyStr := (pySplit1 ':' line).getD 1 []

/-- The expression line.split(sep)[1] used by parse_quiz on Correct lines
(src/app.py line 297): full split, second segment. -/
def colonSeg (line : PyStr) : PyStr := (splitOnChar ':' line).getD 1 []

/-- One quiz record, the Python dict built by parse_quiz.  A field that
was never assigned corresponds to a missing dict key and is none. -/
structure QuizRec where
  question : Option PyStr := none
  A : Option PyStr := none
  B : Option PyStr := none
  C : Option PyStr := none
  D : Option PyStr := none
  correct : Option PyStr := none
  explanation : Option PyStr := none
deriving DecidableEq

/-- The empty dict current_question = {} of src/app.py line 277. -/
def emptyRec : QuizRec := {}

/-- Truthiness of the Python dict: at least one key is present. -/
def QuizRec.nonempty (q : QuizRec) : Bool :=
  q.question.isSome || q.A.isSome || q.B.isSome || q.C.isSome ||
    q.D.isSome || q.correct.isSome || q.explanation.isSome

/-- Guard of the flush in src/app.py lines 285 and 301:
current_question is truthy and has a question key. -/
def flushCond (q : QuizRec) : Bool := q.nonempty && q.question.isSome

/-- Test of src/app.py line 284: line.startswith(('Q1:', ..., 'Q5:')). -/
def startsQ (l : PyStr) : Bool :=
  "Q1:".toList.isPrefixOf l || "Q2:".toList.isPrefixOf l ||
    "Q3:".toList.isPrefixOf l || "Q4:".toList.isPrefixOf l ||
    "Q5:".toList.isPrefixOf l

/-- One iteration of the scan loop of parse_quiz (src/app.py lines
279-299).  The state is the pair (questions, current_question). -/
def step (st : List QuizRec × QuizRec) (rawLine : PyStr) :
    List QuizRec × QuizRec :=
  let line := pyStrip rawLine
  if line.isEmpty then st
  else if startsQ line then
    (if flushCond st.2 then st.1 ++ [st.2] else st.1,
     { emptyRec with question := some (pyStrip (afterColon1 line)) })
  else if "A)".toList.isPrefixOf line then
    (st.1, { st.2 with A := some (pyStrip (line.drop 2)) })
  else if "B)".toList.isPrefixOf line then
    (st.1, { st.2 with B := some (pyStrip (line.drop 2)) })
  else if "C)".toList.isPrefixOf line then
    (st.1, { st.2 with C := some (pyStrip (line.drop 2)) })
  else if "D)".toList.isPrefixOf line then
    (st.1, { st.2 with D := some (pyStrip (line.drop 2)) })
  else if "Correct:".toList.isPrefixOf line then
    (st.1, { st.2 with correct := some (pyStrip (colonSeg line)) })
  else if "Explanation:".toList.isPrefixOf line then
    (st.1, { st.2 with explanation := some (pyStrip (afterColon1 line)) })
  else st

/-- Post-filter of src/app.py line 307: all seven keys are present in the
dict.  Only presence is tested, not the value. -/
def isComplete (q : QuizRec) : Bool :=
  q.question.isSome && q.A.isSome && q.B.isSome && q.C.isSome &&
    q.D.isSome && q.correct.isSome && q.explanation.isSome

/-- Final flush, filter and truncation of parse_quiz (src/app.py lines
301-310). -/
def finishParse (st : List QuizRec × QuizRec) : List QuizRec :=
  let qs := if flushCond st.2 then st.1 ++ [st.2] else st.1
  (qs.filter isComplete).take 5

/-- The whole scan of parse_quiz over a given list of lines. -/
def parseLines (lines : List PyStr) : List QuizRec :=
  finishParse (lines.foldl step ([], emptyRec))

/-- parse_quiz of src/app.py lines 272-310:
quiz_text.strip().split(newline) then the scan, flush, filter, take 5. -/
def parse_quiz (text : PyStr) : List QuizRec :=
  parseLines (splitOnChar '\n' (pyStrip text))

/-- Variant of step in which every Python subscript that could raise an
IndexError is modelled by List.get?: a none result stands for an uncaught
exception.  Lines 287, 297 and 299 of src/app.py index the result of a
split; all other operations of the loop are total. -/
def stepE (st : List QuizRec × QuizRec) (rawLine : PyStr) :
    Option (List QuizRec × QuizRec) :=
  let line := pyStrip rawLine
  if line.isEmpty then some st
  else if startsQ line then
    match (pySplit1 ':' line).get? 1 with
    | none => none
    | some rest =>
      some (if flushCond st.2 then st.1 ++ [st.2] else st.1,
            { emptyRec with question := some (pyStrip rest) })
  else if "A)".toList.isPrefixOf line then
    some (st.1, { st.2 with A := some (pyStrip (line.drop 2)) })
  else if "B)".toList.isPrefixOf line then
    some (st.1, { st.2 with B := some (pyStrip (line.drop 2)) })
  else if "C)".toList.isPrefixOf line then
    some (st.1, { st.2 with C := some (pyStrip (line.drop 2)) })
  else if "D)".toList.isPrefixOf line then
    some (st.1, { st.2 with D := some (pyStrip (line.drop 2)) })
  else if "Correct:".toList.isPrefixOf line then
    match (splitOnChar ':' line).get? 1 with
    | none => none
    | some seg => some (st.1, { st.2 with correct := some (pyStrip seg) })
  else if "Explanation:".toList.isPrefixOf line then
    match (pySplit1 ':' line).get? 1 with
    | none => none
    | some rest =>
      some (st.1, { st.2 with explanation := some (pyStrip rest) })
  else some st

/-- Run stepE over all lines, propagating a raised exception. -/
def foldE (st : List QuizRec × QuizRec) :
    List PyStr → Option (List QuizRec × QuizRec)
  | [] => some st
  | l :: ls =>
    match stepE st l with
    | none => none
    | some st2 => foldE st2 ls

/-- Exception-aware parse_quiz: none would mean an uncaught IndexError. -/
def parse_quizE (text : PyStr) : Option (List QuizRec) :=
  (foldE ([], emptyRec) (splitOnChar '\n' (pyStrip text))).map finishParse

/-- One chat message, the dict with role and content keys kept in
chat_history and guided_history. -/
structure ChatMessage where
  role : PyStr
  content : PyStr
deriving DecidableEq

/-- Role label of src/app.py line 346: User for role user, else
Assistant. -/
def roleLabelChat (m : ChatMessage) : PyStr :=
  if m.role = "user".toList then "User".toList else "Assistant".toList

/-- One line appended to the conversation by src/app.py line 347. -/
def renderMsg (m : ChatMessage) : PyStr :=
  roleLabelChat m ++ ": ".toList ++ m.content ++ "\n\n".toList

/-- Conversation accumulation of src/app.py lines 344-347: iterate over
chat_history[-10:] and append one rendered message each time.  The Python
slice with a negative index keeps the last ten elements, which for a list
of length at most ten is the whole list. -/
def conversationOf (history : List ChatMessage) : PyStr :=
  (history.drop (history.length - 10)).foldl (fun acc m => acc ++ renderMsg m) []

/-- Fixed leading text of the free-chat prompt (src/app.py line 349). -/
def chatPromptHeader : PyStr :=
  "You are a helpful AI assistant. Continue the conversation naturally.\n\n".toList

/-- The free-chat prompt of src/app.py lines 349-352. -/
def buildChatPrompt (history : List ChatMessage) : PyStr :=
  chatPromptHeader ++ conversationOf history ++ "\nAssistant:".toList

/-- Substring test, Python in operator on strings. -/
def containsSub (needle : PyStr) : PyStr → Bool
  | [] => needle.isEmpty
  | c :: rest => needle.isPrefixOf (c :: rest) || containsSub needle rest

/-- The quiz part of the session: quiz_questions (None before the first
generation), user_answers and quiz_submitted. -/
structure QuizState where
  questions : Option (List QuizRec)
  userAnswers : List (Nat × PyStr)
  submitted : Bool
deriving DecidableEq

/-- Message shown by src/app.py line 219 when generation fails. -/
def genQuizErrorMsg (e : PyStr) : PyStr := "Error generating quiz: ".toList ++ e

/-- The Generate Quiz handler of src/app.py lines 167-219, with the
external model call passed in as an Except value.  Lines 168-169 reset
quiz_submitted and user_answers before the try block; inside the try the
response is parsed into quiz_questions, and on an exception an error
message is produced instead. -/
def generateQuizStep (st : QuizState) (response : Except PyStr PyStr) :
    QuizState × Option PyStr :=
  let st1 : QuizState := { st with submitted := false, userAnswers := [] }
  match response with
  | Except.ok text => ({ st1 with questions := some (parse_quiz text) }, none)
  | Except.error e => (st1, some (genQuizErrorMsg e))

/-- Python user_answers.get(i, ''), src/app.py line 248. -/
def dictGet (d : List (Nat × PyStr)) (i : Nat) : PyStr :=
  match d.find? (fun p => p.1 == i) with
  | some p => p.2
  | none => []

/-- Python user_answer[0] if user_answer else '', src/app.py line 249. -/
def userLetter (a : PyStr) : PyStr :=
  match a with
  | [] => []
  | c :: _ => [c]

/-- The scoring loop of src/app.py lines 245-253 over the questions,
carrying the enumerate index and the running score.  Accessing the
correct key of a record that lacks it is a KeyError, modelled as none. -/
def scoreAux (i acc : Nat) (answers : List (Nat × PyStr)) :
    List QuizRec → Option Nat
  | [] => some acc
  | q :: rest =>
    match q.correct with
    | none => none
    | some c =>
      let letter := userLetter (dictGet answers i)
      scoreAux (i + 1) (if letter = c then acc + 1 else acc) answers rest

/-- Final score of a submitted quiz, src/app.py lines 245-253. -/
def scoreE (questions : List QuizRec) (answers : List (Nat × PyStr)) :
    Option Nat :=
  scoreAux 0 0 answers questions

/-- The per-session application state.  Initial values: authenticated,
api_key and api_key_entry from init_session_state (src/app.py lines
13-20), the remaining keys from the if-missing defaults of
reset_api_state (src/app.py lines 32-45).  The opaque model object is
kept only as present or absent. -/
structure AppSession where
  authenticated : Bool
  api_key : Option PyStr
  api_key_entry : PyStr
  model : Option Unit
  chat_history : List ChatMessage
  guided_history : List ChatMessage
  guided_topic : PyStr
  quiz_questions : Option (List QuizRec)
  quiz_submitted : Bool
  user_answers : List (Nat × PyStr)
deriving DecidableEq

/-- The freshly initialized session. -/
def initSession : AppSession where
  authenticated := false
  api_key := none
  api_key_entry := []
  model := none
  chat_history := []
  guided_history := []
  guided_topic := []
  quiz_questions := none
  quiz_submitted := false
  user_answers := []

/-- The Logout handler of src/app.py lines 395-405: every session key is
assigned its initial value. -/
def logout (s : AppSession) : AppSession :=
  { s with
    authenticated := false
    chat_history := []
    guided_history := []
    guided_topic := []
    quiz_questions := none
    quiz_submitted := false
    user_answers := []
    api_key := none
    api_key_entry := []
    model := none }

/-- Topic handling of guided_learning, src/app.py lines 98-100: when the
entered topic differs from the stored one, store it and clear the guided
history; otherwise nothing changes. -/
def setGuidedTopic (topic : PyStr) (s : AppSession) : AppSession :=
  if topic ≠ s.guided_topic then
    { s with guided_topic := topic, guided_history := [] }
  else s

/-- Blocks of the quiz wire format (src/app.py lines 173-213): a marker
digit and seven text fields, rendered over seven lines. -/
structure Block where
  marker : Char
  question : PyStr
  A : PyStr
  B : PyStr
  C : PyStr
  D : PyStr
  correct : PyStr
  explanation : PyStr
deriving DecidableEq

/-- A text fragment that survives stripping unchanged: nonempty, no
leading or trailing whitespace, and free of newlines. -/
def niceStr (s : PyStr) : Bool :=
  !s.isEmpty &&
    (match s.head? with | some c => !pyIsWs c | none => true) &&
    (match s.getLast? with | some c => !pyIsWs c | none => true) &&
    s.all (fun c => !(c == '\n'))

/-- Well-formed block: a marker among 1-5, every field nice, and a
correct field without colons (the Correct line is split on every
colon). -/
def wfBlock (b : Block) : Bool :=
  (b.marker == '1' || b.marker == '2' || b.marker == '3' ||
      b.marker == '4' || b.marker == '5') &&
    niceStr b.question && niceStr b.A && niceStr b.B && niceStr b.C &&
    niceStr b.D && niceStr b.correct &&
    b.correct.all (fun c => !(c == ':')) && niceStr b.explanation

/-- The seven lines of one block in the wire format requested by the
quiz prompt of src/app.py lines 173-213. -/
def renderBlock (b : Block) : List PyStr :=
  [ 'Q' :: b.marker :: ':' :: ' ' :: b.question,
    'A' :: ')' :: ' ' :: b.A,
    'B' :: ')' :: ' ' :: b.B,
    'C' :: ')' :: ' ' :: b.C,
    'D' :: ')' :: ' ' :: b.D,
    "Correct: ".toList ++ b.correct,
    "Explanation: ".toList ++ b.explanation ]

/-- The record parse_quiz builds from one complete block. -/
def toRec (b : Block) : QuizRec :=
  { question := some b.question, A := some b.A, B := some b.B,
    C := some b.C, D := some b.D, correct := some b.correct,
    explanation := some b.explanation }

/-- Join lines with newline characters, the inverse of splitting. -/
def joinNl : List PyStr → PyStr
  | [] => []
  | [l] => l
  | l :: ls => l ++ '\n' :: joinNl ls

example :
    parse_quiz ("Q1: q\nA) a\nB) b\nC) c\nD) d\nCorrect: B\nExplanation: e".toList) =
      [{ question := some "q".toList, A := some "a".toList, B := some "b".toList,
         C := some "c".toList, D := some "d".toList, correct := some "B".toList,
         explanation := some "e".toList }] := by decide

/-!
Basic lemmas about stripping.
-/

theorem pyStrip_nil : pyStrip [] = [] := rfl

theorem pyStrip_cons_ws {c : Char} (s : PyStr) (h : pyIsWs c = true) :
    pyStrip (c :: s) = pyStrip s := by
  simp [pyStrip, List.dropWhile_cons, h]

theorem pyStrip_eq_self {s : PyStr}
    (h1 : ∀ c, s.head? = some c → pyIsWs c = false)
    (h2 : ∀ c, s.getLast? = some c → pyIsWs c = false) :
    pyStrip s = s := by
  cases s with
  | nil => rfl
  | cons a t =>
    have ha : pyIsWs a = false := h1 a rfl
    have hdrop : List.dropWhile pyIsWs (a :: t) = a :: t := by
      simp [List.dropWhile_cons, ha]
    unfold pyStrip
    rw [hdrop]
    cases hr : (a :: t).reverse with
    | nil => simp at hr
    | cons b r =>
      have hb : (a :: t).getLast? = some b := by
        rw [← List.head?_reverse, hr]; rfl
      have hbws : pyIsWs b = false := h2 b hb
      have hd2 : List.dropWhile pyIsWs (b :: r) = b :: r :=
        List.dropWhile_cons_of_neg (by simp [hbws])
      rw [hd2, ← hr, List.reverse_reverse]

theorem niceStr_spec {s : PyStr} (h : niceStr s = true) :
    s ≠ [] ∧ (∀ c, s.head? = some c → pyIsWs c = false) ∧
      (∀ c, s.getLast? = some c → pyIsWs c = false) ∧
      (∀ c ∈ s, (c == '\n') = false) := by
  unfold niceStr at h
  simp only [Bool.and_eq_true] at h
  obtain ⟨⟨⟨hne, hh⟩, hl⟩, hall⟩ := h
  refine ⟨?_, ?_, ?_, ?_⟩
  · intro he; subst he; simp at hne
  · intro c hc; rw [hc] at hh; simpa using hh
  · intro c hc; rw [hc] at hl; simpa using hl
  · intro c hc; simpa using List.all_eq_true.mp hall c hc

theorem pyStrip_nice {s : PyStr} (h : niceStr s = true) : pyStrip s = s :=
  pyStrip_eq_self (niceStr_spec h).2.1 (niceStr_spec h).2.2.1

theorem pyStrip_fixed {c : Char} {p f : PyStr} (hc : pyIsWs c = false)
    (hf : niceStr f = true) : pyStrip ((c :: p) ++ f) = (c :: p) ++ f := by
  apply pyStrip_eq_self
  · intro d hd
    simp only [List.cons_append, List.head?_cons, Option.some.injEq] at hd
    rw [← hd]; exact hc
  · intro d hd
    rw [List.getLast?_append] at hd
    have hfne := (niceStr_spec hf).1
    cases hgl : f.getLast? with
    | none =>
      exact absurd (List.getLast?_eq_none_iff.mp hgl) hfne
    | some e =>
      rw [hgl] at hd
      have hed : e = d := by simpa [Option.or] using hd
      rw [← hed]
      exact (niceStr_spec hf).2.2.1 e hgl

/-!
Claim C4: logout resets every session field to its initial value.
-/

/-- C4: after logout, every field of the session record equals the value
given to it at fresh initialization, so logout is a round trip back to
the initial session state. -/
theorem logout_roundtrip (s : AppSession) : logout s = initSession := rfl

/-!
Claim C6: setting the guided topic.
-/

/-- C6: entering a topic different from the stored one overwrites the
stored topic and resets the guided history to empty; entering the stored
topic again leaves the whole session, hence the history, untouched
(src/app.py lines 98-100). -/
theorem set_guided_topic_reset (t : PyStr) (s : AppSession) :
    (t ≠ s.guided_topic →
      (setGuidedTopic t s).guided_history = [] ∧
        (setGuidedTopic t s).guided_topic = t) ∧
    (t = s.guided_topic → setGuidedTopic t s = s) := by
  constructor
  · intro h
    simp [setGuidedTopic, h]
  · intro h
    simp [setGuidedTopic, h]

/-- Witness for C6 at a concrete session that stores topic math with a
one-message history: switching to physics clears the history; entering
math again changes nothing. -/
theorem set_guided_topic_reset_witness :
    ((setGuidedTopic "physics".toList
        { initSession with
          guided_topic := "math".toList
          guided_history := [{ role := "user".toList, content := "hi".toList }] }).guided_history = [] ∧
      (setGuidedTopic "physics".toList
        { initSession with
          guided_topic := "math".toList
          guided_history := [{ role := "user".toList, content := "hi".toList }] }).guided_topic = "physics".toList) ∧
    setGuidedTopic "math".toList
        { initSession with
          guided_topic := "math".toList
          guided_history := [{ role := "user".toList, content := "hi".toList }] } =
      { initSession with
        guided_topic := "math".toList
        guided_history := [{ role := "user".toList, content := "hi".toList }] } :=
  ⟨(set_guided_topic_reset "physics".toList _).1 (by decide),
   (set_guided_topic_reset "math".toList _).2 (by decide)⟩

/-!
Claim C3: behavior of the Generate Quiz handler when the model call
fails.  The claim states that the quiz state is left entirely unchanged;
in the code quiz_submitted and user_answers are assigned before the try
block (src/app.py lines 168-169), so an error leaves the old questions
with cleared answers and a cleared submitted flag.
-/

/-- C3 counterexample: starting from a graded quiz with a recorded
answer, a failing generation still produces a user-visible message, yet
the quiz state afterwards differs from the one before, refuting the
no-partial-mutation claim. -/
theorem generate_quiz_error_atomicity_refuted :
    (generateQuizStep
        { questions := some [], userAnswers := [(0, "A) x".toList)], submitted := true }
        (Except.error "boom".toList)).2.isSome = true ∧
    (generateQuizStep
        { questions := some [], userAnswers := [(0, "A) x".toList)], submitted := true }
        (Except.error "boom".toList)).1 ≠
      { questions := some [], userAnswers := [(0, "A) x".toList)], submitted := true } := by
  constructor
  · rfl
  · decide

/-- C3 amended: when the model call fails the error is caught and
surfaced as a message and quiz_questions is left unchanged, but
quiz_submitted and user_answers have already been reset to false and
empty before the call, and that partial mutation persists on error. -/
theorem generate_quiz_error_keeps_questions_resets_answers
    (st : QuizState) (e : PyStr) :
    (generateQuizStep st (Except.error e)).1.questions = st.questions ∧
    (generateQuizStep st (Except.error e)).1.submitted = false ∧
    (generateQuizStep st (Except.error e)).1.userAnswers = [] ∧
    (generateQuizStep st (Except.error e)).2 = some (genQuizErrorMsg e) :=
  ⟨rfl, rfl, rfl, rfl⟩

/-!
Claim C5: scoring.  The comparison of src/app.py line 250 is
user_letter == q-correct where user_letter is the first character of the
recorded answer, or the empty string when no answer is recorded.  When
the stored correct value is itself the empty string, an unanswered
question therefore counts as correct, refuting the unconditional
unanswered-scores-incorrect part of the claim.
-/

/-- C5 counterexample: a fully populated record whose correct field is
the empty string (as produced by a bare Correct: line) scores as correct
when no answer is recorded, because the empty default answer compares
equal to it; the claim predicts a score of 0 here. -/
theorem scoring_unanswered_empty_correct_refuted :
    scoreE
      [{ question := some "q".toList, A := some "a".toList, B := some "b".toList,
         C := some "c".toList, D := some "d".toList, correct := some [],
         explanation := some "e".toList }] [] = some 1 := by decide

/-- C5 amended: the score counts a question as correct exactly when the
one-character string made of the first character of the recorded answer
(the empty string if none) equals the stored correct value.  On the
claim's example the score is 1, and an unanswered question scores as
incorrect whenever the stored correct value is nonempty. -/
theorem scoring_first_char_comparison :
    scoreE
        [{ emptyRec with correct := some "B".toList },
         { emptyRec with correct := some "A".toList }]
        [(0, "B) x".toList), (1, "C) y".toList)] = some 1 ∧
    (∀ c : PyStr, c ≠ [] →
      scoreE [{ emptyRec with correct := some c }] [] = some 0) ∧
    (∀ c a : PyStr,
      scoreE [{ emptyRec with correct := some c }] [(0, a)] =
        some (if userLetter a = c then 1 else 0)) := by
  refine ⟨by decide, ?_, ?_⟩
  · intro c hc
    have h : ¬ (userLetter (dictGet [] 0) = c) := fun h2 => hc h2.symm
    simp [scoreE, scoreAux, h]
  · intro c a
    have hget : dictGet [(0, a)] 0 = a := by simp [dictGet, List.find?]
    simp [scoreE, scoreAux, hget]

/-- Witness for C5 amended at correct value B: unanswered scores 0 and an
answer starting with B scores 1. -/
theorem scoring_first_char_comparison_witness :
    scoreE [{ emptyRec with correct := some "B".toList }] [] = some 0 ∧
    scoreE [{ emptyRec with correct := some "B".toList }] [(0, "B) x".toList)] =
      some (if userLetter "B) x".toList = "B".toList then 1 else 0) :=
  ⟨scoring_first_char_comparison.2.1 "B".toList (by decide),
   scoring_first_char_comparison.2.2 "B".toList "B) x".toList⟩

/-!
Claim C1: the Correct line.  Line 297 of src/app.py splits on every
colon and keeps segment 1, so text after a second colon is lost; the
claim says everything after the first colon is kept.
-/

/-- C1 counterexample: on a Correct line whose value contains a further
colon the parser stores only the segment between the first and second
colon, while the text after the first colon, trimmed, would be the whole
value; the two differ. -/
theorem correct_field_first_colon_refuted :
    (parse_quiz
        "Q1: q\nA) a\nB) b\nC) c\nD) d\nCorrect: B: because\nExplanation: e".toList).map
      QuizRec.correct = [some "B".toList] ∧
    pyStrip (afterColon1 "Correct: B: because".toList) = "B: because".toList ∧
    "B".toList ≠ "B: because".toList := by
  refine ⟨by decide, by decide, by decide⟩

/-!
Lemmas about the splitting helpers.
-/

theorem splitOnChar_ne_nil (sep : Char) (s : PyStr) : splitOnChar sep s ≠ [] := by
  induction s with
  | nil => simp [splitOnChar]
  | cons c rest ih =>
    unfold splitOnChar
    cases hrec : splitOnChar sep rest with
    | nil => simp
    | cons h t => by_cases hc : (c == sep) = true <;> simp [hc]

theorem splitOnChar_no_sep {sep : Char} {s : PyStr}
    (h : ∀ c ∈ s, (c == sep) = false) : splitOnChar sep s = [s] := by
  induction s with
  | nil => rfl
  | cons c rest ih =>
    have hc := h c (List.mem_cons_self c rest)
    have hrest : ∀ x ∈ rest, (x == sep) = false :=
      fun x hx => h x (List.mem_cons_of_mem _ hx)
    simp [splitOnChar, ih hrest, hc]

theorem splitOnChar_append_sep {sep : Char} {a : PyStr} (b : PyStr)
    (ha : ∀ c ∈ a, (c == sep) = false) :
    splitOnChar sep (a ++ sep :: b) = a :: splitOnChar sep b := by
  induction a with
  | nil =>
    cases hb : splitOnChar sep b with
    | nil => exact absurd hb (splitOnChar_ne_nil sep b)
    | cons h t => simp [splitOnChar, hb]
  | cons c a2 ih =>
    have hc := ha c (List.mem_cons_self c a2)
    have ha2 : ∀ x ∈ a2, (x == sep) = false :=
      fun x hx => ha x (List.mem_cons_of_mem _ hx)
    have ih2 := ih ha2
    cases hb : splitOnChar sep (a2 ++ sep :: b) with
    | nil => exact absurd hb (splitOnChar_ne_nil sep _)
    | cons h t =>
      rw [hb] at ih2
      injection ih2 with ihh iht
      subst ihh
      subst iht
      simp [splitOnChar, hb, hc]

theorem splitFirst_isSome_of_mem {sep : Char} {s : PyStr} (h : sep ∈ s) :
    (splitFirst sep s).isSome = true := by
  induction s with
  | nil => simp at h
  | cons c rest ih =>
    by_cases hc : (c == sep) = true
    · simp [splitFirst, hc]
    · have h1 : sep ∈ rest := by
        rcases List.mem_cons.mp h with h2 | h2
        · exact absurd (by simp [h2]) hc
        · exact h2
      obtain ⟨p, hp⟩ := Option.isSome_iff_exists.mp (ih h1)
      simp [splitFirst, hc, hp]

theorem splitFirst_no_sep {sep : Char} {s : PyStr}
    (h : ∀ c ∈ s, (c == sep) = false) : splitFirst sep s = none := by
  induction s with
  | nil => rfl
  | cons c rest ih =>
    have hc := h c (List.mem_cons_self c rest)
    have hrest : ∀ x ∈ rest, (x == sep) = false :=
      fun x hx => h x (List.mem_cons_of_mem _ hx)
    simp [splitFirst, hc, ih hrest]

theorem splitFirst_append_sep {sep : Char} {a : PyStr} (b : PyStr)
    (ha : ∀ c ∈ a, (c == sep) = false) :
    splitFirst sep (a ++ sep :: b) = some (a, b) := by
  induction a with
  | nil => simp [splitFirst]
  | cons c a2 ih =>
    have hc := ha c (List.mem_cons_self c a2)
    have ha2 : ∀ x ∈ a2, (x == sep) = false :=
      fun x hx => ha x (List.mem_cons_of_mem _ hx)
    simp [splitFirst, hc, ih ha2]

theorem mem_of_isPrefixOf {p s : PyStr} (hp : p.isPrefixOf s = true)
    {c : Char} (hc : c ∈ p) : c ∈ s := by
  induction p generalizing s with
  | nil => simp at hc
  | cons a as ih =>
    cases s with
    | nil => simp at hp
    | cons b bs =>
      rw [List.isPrefixOf_cons₂] at hp
      simp only [Bool.and_eq_true, beq_iff_eq] at hp
      obtain ⟨hab, htail⟩ := hp
      rcases List.mem_cons.mp hc with h1 | h1
      · subst h1; subst hab; exact List.mem_cons_self _ _
      · exact List.mem_cons_of_mem _ (ih htail h1)

theorem startsQ_colon_mem {l : PyStr} (h : startsQ l = true) : ':' ∈ l := by
  unfold startsQ at h
  simp only [Bool.or_eq_true] at h
  rcases h with ((((h | h) | h) | h) | h) <;>
    exact mem_of_isPrefixOf h (by decide)

theorem splitOnChar_length_ge {sep : Char} {s : PyStr} (h : sep ∈ s) :
    2 ≤ (splitOnChar sep s).length := by
  induction s with
  | nil => simp at h
  | cons c rest ih =>
    cases hrec : splitOnChar sep rest with
    | nil => exact absurd hrec (splitOnChar_ne_nil sep rest)
    | cons hseg t =>
      by_cases hc : (c == sep) = true
      · simp [splitOnChar, hrec, hc]
      · have h1 : sep ∈ rest := by
          rcases List.mem_cons.mp h with h2 | h2
          · exact absurd (by simp [h2]) hc
          · exact h2
        have h2 := ih h1
        rw [hrec] at h2
        simp only [List.length_cons] at h2
        simp [splitOnChar, hrec, hc]
        omega

theorem get?_one_of_two {l : List PyStr} (h : 2 ≤ l.length) :
    l.get? 1 = some (l.getD 1 []) := by
  cases l with
  | nil => simp at h
  | cons a t =>
    cases t with
    | nil => simp at h
    | cons b t2 => rfl

/-!
Membership in the parser output implies completeness: the helper behind
the malformed-records-are-omitted and the post-filter claims.
-/

theorem mem_parseLines_complete {lines : List PyStr} {q : QuizRec}
    (h : q ∈ parseLines lines) : isComplete q = true := by
  simp only [parseLines, finishParse] at h
  exact (List.mem_filter.mp (List.mem_of_mem_take h)).2

/-!
Claim C2: the post-filter.  Line 307 of src/app.py tests only key
presence, so an empty-string field passes the filter; the claim says an
empty-string field causes the record to be discarded.
-/

/-- C2 counterexample: a block whose option A line carries no text parses
to a record whose A field is the empty string, and that record is kept
and surfaced as the output of parse_quiz, refuting the claim that such a
record is discarded and never surfaced. -/
theorem post_filter_empty_string_refuted :
    parse_quiz "Q1: q\nA)\nB) b\nC) c\nD) d\nCorrect: A\nExplanation: e".toList =
      [{ question := some "q".toList, A := some [], B := some "b".toList,
         C := some "c".toList, D := some "d".toList, correct := some "A".toList,
         explanation := some "e".toList }] := by decide

/-- C2 amended: the post-filter keeps exactly the records in which all
seven keys are present; a key holding the empty string counts as
present, so a record with an empty-string field is retained and
surfaced. -/
theorem post_filter_checks_presence_only :
    (∀ (lines : List PyStr) (q : QuizRec),
      q ∈ parseLines lines → isComplete q = true) ∧
    parse_quiz "Q1: q\nA)\nB) b\nC) c\nD) d\nCorrect: A\nExplanation: e".toList ≠
      [] := by
  constructor
  · intro lines q h
    exact mem_parseLines_complete h
  · decide

/-- Witness for C2 amended: the record surfaced for the empty-option
block is indeed complete in the key-presence sense. -/
theorem post_filter_checks_presence_only_witness :
    isComplete
      { question := some "q".toList, A := some [], B := some "b".toList,
        C := some "c".toList, D := some "d".toList, correct := some "A".toList,
        explanation := some "e".toList } = true :=
  post_filter_checks_presence_only.1
    ["Q1: q".toList, "A)".toList, "B) b".toList, "C) c".toList,
      "D) d".toList, "Correct: A".toList, "Explanation: e".toList] _ (by decide)

/-!
Character-list forms of the string literals used by the parser.
-/

theorem q1_chars : "Q1:".toList = ['Q', '1', ':'] := rfl

theorem q2_chars : "Q2:".toList = ['Q', '2', ':'] := rfl

theorem q3_chars : "Q3:".toList = ['Q', '3', ':'] := rfl

theorem q4_chars : "Q4:".toList = ['Q', '4', ':'] := rfl

theorem q5_chars : "Q5:".toList = ['Q', '5', ':'] := rfl

theorem optA_chars : "A)".toList = ['A', ')'] := rfl

theorem optB_chars : "B)".toList = ['B', ')'] := rfl

theorem optC_chars : "C)".toList = ['C', ')'] := rfl

theorem optD_chars : "D)".toList = ['D', ')'] := rfl

theorem cor_chars : "Correct:".toList = ['C', 'o', 'r', 'r', 'e', 'c', 't', ':'] := rfl

theorem corSp_chars :
    "Correct: ".toList = ['C', 'o', 'r', 'r', 'e', 'c', 't', ':', ' '] := rfl

theorem exp_chars :
    "Explanation:".toList =
      ['E', 'x', 'p', 'l', 'a', 'n', 'a', 't', 'i', 'o', 'n', ':'] := rfl

theorem expSp_chars :
    "Explanation: ".toList =
      ['E', 'x', 'p', 'l', 'a', 'n', 'a', 't', 'i', 'o', 'n', ':', ' '] := rfl

/-!
Evaluation of one scan step on each kind of well-shaped line.
-/

theorem step_blank (st : List QuizRec × QuizRec) {l : PyStr}
    (h : pyStrip l = []) : step st l = st := by
  simp [step, h]

theorem step_q (qs : List QuizRec) (cur : QuizRec) {d : Char}
    (hd : d = '1' ∨ d = '2' ∨ d = '3' ∨ d = '4' ∨ d = '5') {q : PyStr}
    (hq : niceStr q = true) :
    step (qs, cur) ('Q' :: d :: ':' :: ' ' :: q) =
      (if flushCond cur then qs ++ [cur] else qs,
        { emptyRec with question := some q }) := by
  have hline : pyStrip ('Q' :: d :: ':' :: ' ' :: q) = 'Q' :: d :: ':' :: ' ' :: q := by
    simpa using pyStrip_fixed (c := 'Q') (p := [d, ':', ' ']) (f := q) (by decide) hq
  have hsp : pyStrip (' ' :: q) = q := by
    rw [pyStrip_cons_ws q (by decide), pyStrip_nice hq]
  rcases hd with rfl | rfl | rfl | rfl | rfl <;>
    simp [step, hline, startsQ, afterColon1, pySplit1, splitFirst, hsp,
      q1_chars, q2_chars, q3_chars, q4_chars, q5_chars, List.isPrefixOf_cons₂]

theorem step_optA (qs : List QuizRec) (cur : QuizRec) {a : PyStr}
    (ha : niceStr a = true) :
    step (qs, cur) ('A' :: ')' :: ' ' :: a) = (qs, { cur with A := some a }) := by
  have hline : pyStrip ('A' :: ')' :: ' ' :: a) = 'A' :: ')' :: ' ' :: a := by
    simpa using pyStrip_fixed (c := 'A') (p := [')', ' ']) (f := a) (by decide) ha
  have hsp : pyStrip (' ' :: a) = a := by
    rw [pyStrip_cons_ws a (by decide), pyStrip_nice ha]
  simp [step, hline, startsQ, hsp, q1_chars, q2_chars, q3_chars, q4_chars,
    q5_chars, optA_chars, List.isPrefixOf_cons₂]

theorem step_optB (qs : List QuizRec) (cur : QuizRec) {a : PyStr}
    (ha : niceStr a = true) :
    step (qs, cur) ('B' :: ')' :: ' ' :: a) = (qs, { cur with B := some a }) := by
  have hline : pyStrip ('B' :: ')' :: ' ' :: a) = 'B' :: ')' :: ' ' :: a := by
    simpa using pyStrip_fixed (c := 'B') (p := [')', ' ']) (f := a) (by decide) ha
  have hsp : pyStrip (' ' :: a) = a := by
    rw [pyStrip_cons_ws a (by decide), pyStrip_nice ha]
  simp [step, hline, startsQ, hsp, q1_chars, q2_chars, q3_chars, q4_chars,
    q5_chars, optA_chars, optB_chars, List.isPrefixOf_cons₂]

theorem step_optC (qs : List QuizRec) (cur : QuizRec) {a : PyStr}
    (ha : niceStr a = true) :
    step (qs, cur) ('C' :: ')' :: ' ' :: a) = (qs, { cur with C := some a }) := by
  have hline : pyStrip ('C' :: ')' :: ' ' :: a) = 'C' :: ')' :: ' ' :: a := by
    simpa using pyStrip_fixed (c := 'C') (p := [')', ' ']) (f := a) (by decide) ha
  have hsp : pyStrip (' ' :: a) = a := by
    rw [pyStrip_cons_ws a (by decide), pyStrip_nice ha]
  simp [step, hline, startsQ, hsp, q1_chars, q2_chars, q3_chars, q4_chars,
    q5_chars, optA_chars, optB_chars, optC_chars, List.isPrefixOf_cons₂]

theorem step_optD (qs : List QuizRec) (cur : QuizRec) {a : PyStr}
    (ha : niceStr a = true) :
    step (qs, cur) ('D' :: ')' :: ' ' :: a) = (qs, { cur with D := some a }) := by
  have hline : pyStrip ('D' :: ')' :: ' ' :: a) = 'D' :: ')' :: ' ' :: a := by
    simpa using pyStrip_fixed (c := 'D') (p := [')', ' ']) (f := a) (by decide) ha
  have hsp : pyStrip (' ' :: a) = a := by
    rw [pyStrip_cons_ws a (by decide), pyStrip_nice ha]
  simp [step, hline, startsQ, hsp, q1_chars, q2_chars, q3_chars, q4_chars,
    q5_chars, optA_chars, optB_chars, optC_chars, optD_chars,
    List.isPrefixOf_cons₂]

theorem step_correct_val (qs : List QuizRec) (cur : QuizRec) {v : PyStr}
    (hv : niceStr v = true) (hvc : ∀ c ∈ v, (c == ':') = false) :
    step (qs, cur) ('C' :: 'o' :: 'r' :: 'r' :: 'e' :: 'c' :: 't' :: ':' :: ' ' :: v) =
      (qs, { cur with correct := some v }) := by
  have hline :
      pyStrip ('C' :: 'o' :: 'r' :: 'r' :: 'e' :: 'c' :: 't' :: ':' :: ' ' :: v) =
        'C' :: 'o' :: 'r' :: 'r' :: 'e' :: 'c' :: 't' :: ':' :: ' ' :: v := by
    simpa using
      pyStrip_fixed (c := 'C') (p := ['o', 'r', 'r', 'e', 'c', 't', ':', ' '])
        (f := v) (by decide) hv
  have hsp : pyStrip (' ' :: v) = v := by
    rw [pyStrip_cons_ws v (by decide), pyStrip_nice hv]
  have hseg :
      colonSeg ('C' :: 'o' :: 'r' :: 'r' :: 'e' :: 'c' :: 't' :: ':' :: ' ' :: v) =
        ' ' :: v := by
    have e1 : ('C' :: 'o' :: 'r' :: 'r' :: 'e' :: 'c' :: 't' :: ':' :: ' ' :: v : PyStr) =
        ['C', 'o', 'r', 'r', 'e', 'c', 't'] ++ ':' :: (' ' :: v) := by simp
    have h2 : ∀ c ∈ (' ' :: v : PyStr), (c == ':') = false := by
      intro c hc
      rcases List.mem_cons.mp hc with h3 | h3
      · subst h3; decide
      · exact hvc c h3
    rw [colonSeg, e1, splitOnChar_append_sep _ (by decide),
      splitOnChar_no_sep h2]
    rfl
  simp [step, hline, startsQ, hseg, hsp, q1_chars, q2_chars, q3_chars,
    q4_chars, q5_chars, optA_chars, optB_chars, optC_chars, optD_chars,
    cor_chars, List.isPrefixOf_cons₂]

theorem step_correct_extra_colon (qs : List QuizRec) (cur : QuizRec) {v w : PyStr}
    (hv : niceStr v = true) (hvc : ∀ c ∈ v, (c == ':') = false)
    (hw : niceStr w = true) :
    step (qs, cur)
        ('C' :: 'o' :: 'r' :: 'r' :: 'e' :: 'c' :: 't' :: ':' :: ' ' :: (v ++ ':' :: w)) =
      (qs, { cur with correct := some v }) := by
  have hline :
      pyStrip ('C' :: 'o' :: 'r' :: 'r' :: 'e' :: 'c' :: 't' :: ':' :: ' ' :: (v ++ ':' :: w)) =
        'C' :: 'o' :: 'r' :: 'r' :: 'e' :: 'c' :: 't' :: ':' :: ' ' :: (v ++ ':' :: w) := by
    simpa [List.append_assoc] using
      pyStrip_fixed (c := 'C')
        (p := ['o', 'r', 'r', 'e', 'c', 't', ':', ' '] ++ v ++ [':'])
        (f := w) (by decide) hw
  have hsp : pyStrip (' ' :: v) = v := by
    rw [pyStrip_cons_ws v (by decide), pyStrip_nice hv]
  have hseg :
      colonSeg ('C' :: 'o' :: 'r' :: 'r' :: 'e' :: 'c' :: 't' :: ':' :: ' ' :: (v ++ ':' :: w)) =
        ' ' :: v := by
    have e1 : ('C' :: 'o' :: 'r' :: 'r' :: 'e' :: 'c' :: 't' :: ':' :: ' ' :: (v ++ ':' :: w) : PyStr) =
        ['C', 'o', 'r', 'r', 'e', 'c', 't'] ++ ':' :: ((' ' :: v) ++ ':' :: w) := by simp
    have h2 : ∀ c ∈ (' ' :: v : PyStr), (c == ':') = false := by
      intro c hc
      rcases List.mem_cons.mp hc with h3 | h3
      · subst h3; decide
      · exact hvc c h3
    rw [colonSeg, e1, splitOnChar_append_sep _ (by decide),
      splitOnChar_append_sep _ h2]
    rfl
  simp [step, hline, startsQ, hseg, hsp, q1_chars, q2_chars, q3_chars,
    q4_chars, q5_chars, optA_chars, optB_chars, optC_chars, optD_chars,
    cor_chars, List.isPrefixOf_cons₂]

theorem step_explanation (qs : List QuizRec) (cur : QuizRec) {e : PyStr}
    (he : niceStr e = true) :
    step (qs, cur)
        ('E' :: 'x' :: 'p' :: 'l' :: 'a' :: 'n' :: 'a' :: 't' :: 'i' :: 'o' :: 'n' :: ':' :: ' ' :: e) =
      (qs, { cur with explanation := some e }) := by
  have hline :
      pyStrip ('E' :: 'x' :: 'p' :: 'l' :: 'a' :: 'n' :: 'a' :: 't' :: 'i' :: 'o' :: 'n' :: ':' :: ' ' :: e) =
        'E' :: 'x' :: 'p' :: 'l' :: 'a' :: 'n' :: 'a' :: 't' :: 'i' :: 'o' :: 'n' :: ':' :: ' ' :: e := by
    simpa using
      pyStrip_fixed (c := 'E')
        (p := ['x', 'p', 'l', 'a', 'n', 'a', 't', 'i', 'o', 'n', ':', ' '])
        (f := e) (by decide) he
  have hsp : pyStrip (' ' :: e) = e := by
    rw [pyStrip_cons_ws e (by decide), pyStrip_nice he]
  have hafter :
      afterColon1 ('E' :: 'x' :: 'p' :: 'l' :: 'a' :: 'n' :: 'a' :: 't' :: 'i' :: 'o' :: 'n' :: ':' :: ' ' :: e) =
        ' ' :: e := by
    have e1 : ('E' :: 'x' :: 'p' :: 'l' :: 'a' :: 'n' :: 'a' :: 't' :: 'i' :: 'o' :: 'n' :: ':' :: ' ' :: e : PyStr) =
        ['E', 'x', 'p', 'l', 'a', 'n', 'a', 't', 'i', 'o', 'n'] ++ ':' :: (' ' :: e) := by
      simp
    rw [afterColon1, e1, pySplit1, splitFirst_append_sep _ (by decide)]
    rfl
  simp [step, hline, startsQ, hafter, hsp, q1_chars, q2_chars, q3_chars,
    q4_chars, q5_chars, optA_chars, optB_chars, optC_chars, optD_chars,
    cor_chars, exp_chars, List.isPrefixOf_cons₂]

/-- C1 amended: on a Correct line whose value contains a further colon,
the parser stores the segment of the line between the first and the
second colon, trimmed; everything from the second colon on is dropped.
The surrounding block parses as usual. -/
theorem correct_field_uses_second_colon_segment {v w : PyStr}
    (hv : niceStr v = true) (hvc : ∀ c ∈ v, (c == ':') = false)
    (hw : niceStr w = true) :
    parseLines
        ["Q1: q".toList, "A) a".toList, "B) b".toList, "C) c".toList,
          "D) d".toList, "Correct: ".toList ++ (v ++ ':' :: w),
          "Explanation: e".toList] =
      [{ question := some "q".toList, A := some "a".toList,
         B := some "b".toList, C := some "c".toList, D := some "d".toList,
         correct := some v, explanation := some "e".toList }] := by
  have hsplit :
      (["Q1: q".toList, "A) a".toList, "B) b".toList, "C) c".toList,
        "D) d".toList, "Correct: ".toList ++ (v ++ ':' :: w),
        "Explanation: e".toList] : List PyStr) =
      ["Q1: q".toList, "A) a".toList, "B) b".toList, "C) c".toList,
        "D) d".toList] ++
        ["Correct: ".toList ++ (v ++ ':' :: w), "Explanation: e".toList] := rfl
  have hpre :
      List.foldl step ([], emptyRec)
        ["Q1: q".toList, "A) a".toList, "B) b".toList, "C) c".toList,
          "D) d".toList] =
      ([], { question := some "q".toList, A := some "a".toList,
             B := some "b".toList, C := some "c".toList,
             D := some "d".toList }) := by decide
  have e6 : ("Correct: ".toList ++ (v ++ ':' :: w)) =
      'C' :: 'o' :: 'r' :: 'r' :: 'e' :: 'c' :: 't' :: ':' :: ' ' :: (v ++ ':' :: w) := by
    simp [corSp_chars]
  have e7 : "Explanation: e".toList =
      'E' :: 'x' :: 'p' :: 'l' :: 'a' :: 'n' :: 'a' :: 't' :: 'i' :: 'o' :: 'n' :: ':' :: ' ' :: ['e'] := rfl
  simp only [parseLines]
  rw [hsplit, List.foldl_append, hpre]
  simp only [List.foldl]
  rw [e6, step_correct_extra_colon _ _ hv hvc hw, e7,
    step_explanation _ _ (by decide)]
  simp [finishParse, flushCond, QuizRec.nonempty, isComplete, List.filter]

/-- Witness for C1 amended at the value B:because — the stored correct
field is B. -/
theorem correct_field_uses_second_colon_segment_witness :
    parseLines
        ["Q1: q".toList, "A) a".toList, "B) b".toList, "C) c".toList,
          "D) d".toList, "Correct: ".toList ++ ("B".toList ++ ':' :: "because".toList),
          "Explanation: e".toList] =
      [{ question := some "q".toList, A := some "a".toList,
         B := some "b".toList, C := some "c".toList, D := some "d".toList,
         correct := some "B".toList, explanation := some "e".toList }] :=
  correct_field_uses_second_colon_segment (by decide) (by decide) (by decide)

/-!
Folding the scan over rendered blocks.
-/

theorem wfBlock_spec {b : Block} (h : wfBlock b = true) :
    (b.marker = '1' ∨ b.marker = '2' ∨ b.marker = '3' ∨ b.marker = '4' ∨
        b.marker = '5') ∧
    niceStr b.question = true ∧ niceStr b.A = true ∧ niceStr b.B = true ∧
    niceStr b.C = true ∧ niceStr b.D = true ∧ niceStr b.correct = true ∧
    (∀ c ∈ b.correct, (c == ':') = false) ∧ niceStr b.explanation = true := by
  unfold wfBlock at h
  simp only [Bool.and_eq_true, Bool.or_eq_true, beq_iff_eq,
    List.all_eq_true, Bool.not_eq_true'] at h
  obtain ⟨⟨⟨⟨⟨⟨⟨⟨hm, h1⟩, h2⟩, h3⟩, h4⟩, h5⟩, h6⟩, h7⟩, h8⟩ := h
  refine ⟨by tauto, h1, h2, h3, h4, h5, h6, ?_, h8⟩
  intro c hc
  simpa using h7 c hc

theorem foldl_renderBlock {b : Block} (hb : wfBlock b = true)
    (qs : List QuizRec) (cur : QuizRec) :
    List.foldl step (qs, cur) (renderBlock b) =
      ((if flushCond cur then qs ++ [cur] else qs), toRec b) := by
  obtain ⟨hm, hq, hA, hB, hC, hD, hcor, hcolon, hexp⟩ := wfBlock_spec hb
  simp only [renderBlock, corSp_chars, expSp_chars, List.cons_append,
    List.nil_append, List.foldl_cons, List.foldl_nil]
  rw [step_q qs cur hm hq, step_optA _ _ hA, step_optB _ _ hB,
    step_optC _ _ hC, step_optD _ _ hD, step_correct_val _ _ hcor hcolon,
    step_explanation _ _ hexp]
  rfl

theorem finish_foldl_blocks (bs : List Block) :
    ∀ (qs : List QuizRec) (cur : QuizRec), (∀ b ∈ bs, wfBlock b = true) →
    finishParse (List.foldl step (qs, cur) (bs.flatMap renderBlock)) =
      (((if flushCond cur then qs ++ [cur] else qs) ++ bs.map toRec).filter
          isComplete).take 5 := by
  induction bs with
  | nil =>
    intro qs cur _
    simp [finishParse]
  | cons b bs2 ih =>
    intro qs cur h
    have hb := h b (List.mem_cons_self b bs2)
    have hbs : ∀ x ∈ bs2, wfBlock x = true :=
      fun x hx => h x (List.mem_cons_of_mem _ hx)
    simp only [List.flatMap_cons]
    rw [List.foldl_append, foldl_renderBlock hb, ih _ _ hbs]
    have hf : flushCond (toRec b) = true := rfl
    simp [hf, List.append_assoc]

theorem parseLines_blocks (bs : List Block) (h : ∀ b ∈ bs, wfBlock b = true) :
    parseLines (bs.flatMap renderBlock) = (bs.map toRec).take 5 := by
  have h2 := finish_foldl_blocks bs [] emptyRec h
  simp only [parseLines]
  rw [h2]
  have hf : flushCond emptyRec = false := rfl
  simp only [hf, Bool.false_eq_true, if_false, List.nil_append]
  rw [List.filter_eq_self.mpr]
  intro a ha
  obtain ⟨b, hb, rfl⟩ := List.mem_map.mp ha
  rfl

/-!
Joining lines with newlines and splitting back.
-/

theorem joinNl_cons_ne {l : PyStr} {ls : List PyStr} (h : ls ≠ []) :
    joinNl (l :: ls) = l ++ '\n' :: joinNl ls := by
  cases ls with
  | nil => exact absurd rfl h
  | cons x xs => rfl

theorem splitOnChar_joinNl (lines : List PyStr) (hne : lines ≠ [])
    (h : ∀ l ∈ lines, ∀ c ∈ l, (c == '\n') = false) :
    splitOnChar '\n' (joinNl lines) = lines := by
  induction lines with
  | nil => exact absurd rfl hne
  | cons l ls ih =>
    cases ls with
    | nil => exact splitOnChar_no_sep (h l (List.mem_cons_self l []))
    | cons l2 ls2 =>
      rw [joinNl_cons_ne (by simp),
        splitOnChar_append_sep _ (h l (List.mem_cons_self l _)),
        ih (by simp) (fun x hx => h x (List.mem_cons_of_mem _ hx))]

theorem joinNl_append (xs ys : List PyStr) (hys : ys ≠ []) :
    joinNl (xs ++ ys) =
      (if xs = [] then [] else joinNl xs ++ ['\n']) ++ joinNl ys := by
  induction xs with
  | nil => simp
  | cons x xs2 ih =>
    have hxy : xs2 ++ ys ≠ [] := by
      cases ys with
      | nil => exact absurd rfl hys
      | cons y ys2 => simp
    rw [List.cons_append, joinNl_cons_ne hxy, ih]
    cases hxs : xs2 with
    | nil => simp [joinNl]
    | cons a b =>
      have h2 : joinNl (x :: a :: b) = x ++ '\n' :: joinNl (a :: b) := rfl
      simp [h2, List.append_assoc]

theorem head?_joinNl_cons {c : Char} {t : PyStr} (ls : List PyStr) :
    (joinNl ((c :: t) :: ls)).head? = some c := by
  cases ls with
  | nil => rfl
  | cons x xs => rfl

theorem flatMap_renderBlock_ne_nil {bs : List Block} (h : bs ≠ []) :
    bs.flatMap renderBlock ≠ [] := by
  cases bs with
  | nil => exact absurd rfl h
  | cons b t => simp [renderBlock]

theorem renderBlock_no_nl {b : Block} (hb : wfBlock b = true) :
    ∀ l ∈ renderBlock b, ∀ c ∈ l, (c == '\n') = false := by
  obtain ⟨hm, hq, hA, hB, hC, hD, hcor, hcolon, hexp⟩ := wfBlock_spec hb
  intro l hl c hc
  simp only [renderBlock, corSp_chars, expSp_chars, List.cons_append,
    List.nil_append, List.mem_cons, List.mem_singleton] at hl
  rcases hl with rfl | rfl | rfl | rfl | rfl | rfl | rfl | hl0
  · simp only [List.mem_cons] at hc
    rcases hc with rfl | rfl | rfl | rfl | hc
    · decide
    · rcases hm with h | h | h | h | h <;> rw [h] <;> decide
    · decide
    · decide
    · exact (niceStr_spec hq).2.2.2 c hc
  · simp only [List.mem_cons] at hc
    rcases hc with rfl | rfl | rfl | hc
    · decide
    · decide
    · decide
    · exact (niceStr_spec hA).2.2.2 c hc
  · simp only [List.mem_cons] at hc
    rcases hc with rfl | rfl | rfl | hc
    · decide
    · decide
    · decide
    · exact (niceStr_spec hB).2.2.2 c hc
  · simp only [List.mem_cons] at hc
    rcases hc with rfl | rfl | rfl | hc
    · decide
    · decide
    · decide
    · exact (niceStr_spec hC).2.2.2 c hc
  · simp only [List.mem_cons] at hc
    rcases hc with rfl | rfl | rfl | hc
    · decide
    · decide
    · decide
    · exact (niceStr_spec hD).2.2.2 c hc
  · simp only [List.mem_cons] at hc
    rcases hc with rfl | rfl | rfl | rfl | rfl | rfl | rfl | rfl | rfl | hc
    · decide
    · decide
    · decide
    · decide
    · decide
    · decide
    · decide
    · decide
    · decide
    · exact (niceStr_spec hcor).2.2.2 c hc
  · simp only [List.mem_cons] at hc
    rcases hc with
      rfl | rfl | rfl | rfl | rfl | rfl | rfl | rfl | rfl | rfl | rfl | rfl | rfl | hc
    · decide
    · decide
    · decide
    · decide
    · decide
    · decide
    · decide
    · decide
    · decide
    · decide
    · decide
    · decide
    · decide
    · exact (niceStr_spec hexp).2.2.2 c hc
  · exact absurd hl0 (List.not_mem_nil _)

theorem getLast?_joinNl_blocks (bs : List Block) :
    bs ≠ [] → (∀ b ∈ bs, wfBlock b = true) →
    ∃ c, (joinNl (bs.flatMap renderBlock)).getLast? = some c ∧
      pyIsWs c = false := by
  induction bs with
  | nil => intro h; exact absurd rfl h
  | cons b bs2 ih =>
    intro _ hwf
    have hb := hwf b (List.mem_cons_self b bs2)
    obtain ⟨hm, hq, hA, hB, hC, hD, hcor, hcolon, hexp⟩ := wfBlock_spec hb
    have hexpne := (niceStr_spec hexp).1
    obtain ⟨e, he⟩ : ∃ e, b.explanation.getLast? = some e := by
      cases hgl : b.explanation.getLast? with
      | none => exact absurd (List.getLast?_eq_none_iff.mp hgl) hexpne
      | some e => exact ⟨e, rfl⟩
    have hews : pyIsWs e = false := (niceStr_spec hexp).2.2.1 e he
    have hblock :
        ∃ c, (joinNl (renderBlock b)).getLast? = some c ∧ pyIsWs c = false := by
      refine ⟨e, ?_, hews⟩
      have hsplit7 : renderBlock b =
          (renderBlock b).take 6 ++ ["Explanation: ".toList ++ b.explanation] := by
        simp [renderBlock]
      have hj1 : joinNl ["Explanation: ".toList ++ b.explanation] =
          "Explanation: ".toList ++ b.explanation := rfl
      rw [hsplit7, joinNl_append _ _ (by simp), List.getLast?_append, hj1,
        List.getLast?_append, he, Option.or_some, Option.or_some]
    by_cases hbs2 : bs2 = []
    · subst hbs2
      simpa using hblock
    · obtain ⟨c, hc, hcws⟩ :=
        ih hbs2 (fun x hx => hwf x (List.mem_cons_of_mem _ hx))
      refine ⟨c, ?_, hcws⟩
      have hfm : (b :: bs2).flatMap renderBlock =
          renderBlock b ++ bs2.flatMap renderBlock := by simp
      rw [hfm, joinNl_append _ _ (flatMap_renderBlock_ne_nil hbs2),
        List.getLast?_append, hc, Option.or_some]

/-!
Claim C7: well-formed inputs of five or more complete blocks.
-/

/-- C7: rendering any list of well-formed complete blocks and parsing the
joined text yields exactly the corresponding records: with exactly five
blocks the output is all five in original order, and with more than five
blocks the output is truncated to the first five in order of first
appearance. -/
theorem parse_quiz_five_blocks (bs : List Block)
    (h : ∀ b ∈ bs, wfBlock b = true) :
    (bs.length = 5 →
      parse_quiz (joinNl (bs.flatMap renderBlock)) = bs.map toRec) ∧
    (5 < bs.length →
      parse_quiz (joinNl (bs.flatMap renderBlock)) = (bs.map toRec).take 5) := by
  have key : bs ≠ [] →
      parse_quiz (joinNl (bs.flatMap renderBlock)) = (bs.map toRec).take 5 := by
    intro hne
    have hstrip : pyStrip (joinNl (bs.flatMap renderBlock)) =
        joinNl (bs.flatMap renderBlock) := by
      apply pyStrip_eq_self
      · intro c hc
        cases bs with
        | nil => exact absurd rfl hne
        | cons b bs2 =>
          have hfm : (b :: bs2).flatMap renderBlock =
              ('Q' :: (b.marker :: ':' :: ' ' :: b.question)) ::
                ((renderBlock b).tail ++ bs2.flatMap renderBlock) := by
            simp [renderBlock]
          rw [hfm, head?_joinNl_cons] at hc
          injection hc with h2
          subst h2
          decide
      · intro c hc
        obtain ⟨d, hd, hws⟩ := getLast?_joinNl_blocks bs hne h
        rw [hd] at hc
        injection hc with h2
        subst h2
        exact hws
    simp only [parse_quiz]
    rw [hstrip,
      splitOnChar_joinNl _ (flatMap_renderBlock_ne_nil hne)
        (fun l hl => by
          obtain ⟨b, hb, hlb⟩ := List.mem_flatMap.mp hl
          exact renderBlock_no_nl (h b hb) l hlb)]
    exact parseLines_blocks bs h
  constructor
  · intro h5
    have hne : bs ≠ [] := by
      intro he
      rw [he] at h5
      simp at h5
    rw [key hne]
    have hlen : (bs.map toRec).length = 5 := by simp [h5]
    rw [← hlen, List.take_length]
  · intro h5
    refine key ?_
    intro he
    rw [he] at h5
    simp at h5

/-- Witness for C7 at a concrete list of five well-formed blocks. -/
theorem parse_quiz_five_blocks_witness :
    parse_quiz (joinNl (([
      { marker := '1', question := "q1".toList, A := "a1".toList,
        B := "b1".toList, C := "c1".toList, D := "d1".toList,
        correct := "A".toList, explanation := "e1".toList },
      { marker := '2', question := "q2".toList, A := "a2".toList,
        B := "b2".toList, C := "c2".toList, D := "d2".toList,
        correct := "B".toList, explanation := "e2".toList },
      { marker := '3', question := "q3".toList, A := "a3".toList,
        B := "b3".toList, C := "c3".toList, D := "d3".toList,
        correct := "C".toList, explanation := "e3".toList },
      { marker := '4', question := "q4".toList, A := "a4".toList,
        B := "b4".toList, C := "c4".toList, D := "d4".toList,
        correct := "D".toList, explanation := "e4".toList },
      { marker := '5', question := "q5".toList, A := "a5".toList,
        B := "b5".toList, C := "c5".toList, D := "d5".toList,
        correct := "A".toList, explanation := "e5".toList }] :
        List Block).flatMap renderBlock)) =
      ([
      { marker := '1', question := "q1".toList, A := "a1".toList,
        B := "b1".toList, C := "c1".toList, D := "d1".toList,
        correct := "A".toList, explanation := "e1".toList },
      { marker := '2', question := "q2".toList, A := "a2".toList,
        B := "b2".toList, C := "c2".toList, D := "d2".toList,
        correct := "B".toList, explanation := "e2".toList },
      { marker := '3', question := "q3".toList, A := "a3".toList,
        B := "b3".toList, C := "c3".toList, D := "d3".toList,
        correct := "C".toList, explanation := "e3".toList },
      { marker := '4', question := "q4".toList, A := "a4".toList,
        B := "b4".toList, C := "c4".toList, D := "d4".toList,
        correct := "D".toList, explanation := "e4".toList },
      { marker := '5', question := "q5".toList, A := "a5".toList,
        B := "b5".toList, C := "c5".toList, D := "d5".toList,
        correct := "A".toList, explanation := "e5".toList }] :
        List Block).map toRec :=
  (parse_quiz_five_blocks _ (by decide)).1 (by decide)

/-!
Lines that are not marker lines never flush the accumulator and never
give it a question key.
-/

theorem foldl_noQ (pre : List PyStr) :
    ∀ (qs : List QuizRec) (cur : QuizRec),
      (∀ l ∈ pre, startsQ (pyStrip l) = false) →
      (List.foldl step (qs, cur) pre).1 = qs ∧
        ((List.foldl step (qs, cur) pre).2).question = cur.question := by
  induction pre with
  | nil => intro qs cur _; exact ⟨rfl, rfl⟩
  | cons l ls ih =>
    intro qs cur h
    have hl := h l (List.mem_cons_self l ls)
    have hls : ∀ x ∈ ls, startsQ (pyStrip x) = false :=
      fun x hx => h x (List.mem_cons_of_mem _ hx)
    simp only [List.foldl_cons]
    have hstep : (step (qs, cur) l).1 = qs ∧
        ((step (qs, cur) l).2).question = cur.question := by
      simp only [step]
      split_ifs with h0 h1 hflush hA hB hC hD hCor hExp
      · exact ⟨rfl, rfl⟩
      · exact absurd h1 (by simp [hl])
      · exact absurd h1 (by simp [hl])
      · exact ⟨rfl, rfl⟩
      · exact ⟨rfl, rfl⟩
      · exact ⟨rfl, rfl⟩
      · exact ⟨rfl, rfl⟩
      · exact ⟨rfl, rfl⟩
      · exact ⟨rfl, rfl⟩
      · exact ⟨rfl, rfl⟩
    obtain ⟨ih1, ih2⟩ := ih (step (qs, cur) l).1 (step (qs, cur) l).2 hls
    rw [Prod.mk.eta] at ih1 ih2
    exact ⟨ih1.trans hstep.1, ih2.trans hstep.2⟩

theorem finishParse_foldl_question_none (lines : List PyStr) :
    ∀ (qs : List QuizRec) (cur1 cur2 : QuizRec),
      cur1.question = none → cur2.question = none →
      finishParse (List.foldl step (qs, cur1) lines) =
        finishParse (List.foldl step (qs, cur2) lines) := by
  induction lines with
  | nil =>
    intro qs cur1 cur2 h1 h2
    have hf1 : flushCond cur1 = false := by simp [flushCond, h1]
    have hf2 : flushCond cur2 = false := by simp [flushCond, h2]
    simp [finishParse, hf1, hf2]
  | cons l ls ih =>
    intro qs cur1 cur2 h1 h2
    simp only [List.foldl_cons]
    by_cases h0 : (pyStrip l).isEmpty = true
    · have e1 : step (qs, cur1) l = (qs, cur1) := by simp [step, h0]
      have e2 : step (qs, cur2) l = (qs, cur2) := by simp [step, h0]
      rw [e1, e2]
      exact ih qs cur1 cur2 h1 h2
    · by_cases hq : startsQ (pyStrip l) = true
      · have hf1 : flushCond cur1 = false := by simp [flushCond, h1]
        have hf2 : flushCond cur2 = false := by simp [flushCond, h2]
        have e1 : step (qs, cur1) l =
            (qs, { emptyRec with
                    question := some (pyStrip (afterColon1 (pyStrip l))) }) := by
          simp [step, h0, hq, hf1]
        have e2 : step (qs, cur2) l =
            (qs, { emptyRec with
                    question := some (pyStrip (afterColon1 (pyStrip l))) }) := by
          simp [step, h0, hq, hf2]
        rw [e1, e2]
      · have hpres : ∀ cur : QuizRec, cur.question = none →
            (step (qs, cur) l).1 = qs ∧
              ((step (qs, cur) l).2).question = none := by
          intro cur hcq
          simp only [step]
          split_ifs with hA hB hC hD hCor hExp
          · exact ⟨rfl, hcq⟩
          · exact ⟨rfl, hcq⟩
          · exact ⟨rfl, hcq⟩
          · exact ⟨rfl, hcq⟩
          · exact ⟨rfl, hcq⟩
          · exact ⟨rfl, hcq⟩
          · exact ⟨rfl, hcq⟩
        obtain ⟨p1a, p1b⟩ := hpres cur1 h1
        obtain ⟨p2a, p2b⟩ := hpres cur2 h2
        have e1 : step (qs, cur1) l = (qs, (step (qs, cur1) l).2) :=
          Prod.ext p1a rfl
        have e2 : step (qs, cur2) l = (qs, (step (qs, cur2) l).2) :=
          Prod.ext p2a rfl
        rw [e1, e2]
        exact ih qs _ _ p1b p2b

theorem parseLines_append_noQ (pre rest : List PyStr)
    (h : ∀ l ∈ pre, startsQ (pyStrip l) = false) :
    parseLines (pre ++ rest) = parseLines rest := by
  simp only [parseLines]
  rw [List.foldl_append]
  obtain ⟨h1, h2⟩ := foldl_noQ pre [] emptyRec h
  have e1 : List.foldl step ([], emptyRec) pre =
      ([], (List.foldl step ([], emptyRec) pre).2) :=
    Prod.ext h1 rfl
  rw [e1]
  exact finishParse_foldl_question_none rest [] _ emptyRec (h2.trans rfl) rfl

/-!
Claim C10: option, Correct and Explanation lines before the first marker
line are silently discarded.
-/

/-- C10: any lines appearing before the first Q1:-Q5: marker line that
are not themselves marker lines leave the parse of the remaining input
unchanged: the accumulator they filled has no question key, so it is
never flushed and their content appears in no output record. -/
theorem pre_marker_lines_discarded (pre rest : List PyStr)
    (h : ∀ l ∈ pre, startsQ (pyStrip l) = false) :
    parseLines (pre ++ rest) = parseLines rest :=
  parseLines_append_noQ pre rest h

/-- Witness for C10: a stray option line and a stray Correct line ahead
of a complete block do not change the parse. -/
theorem pre_marker_lines_discarded_witness :
    parseLines (["A) stray".toList, "Correct: B".toList] ++
        ["Q1: q".toList, "A) a".toList, "B) b".toList, "C) c".toList,
          "D) d".toList, "Correct: A".toList, "Explanation: e".toList]) =
      parseLines ["Q1: q".toList, "A) a".toList, "B) b".toList,
        "C) c".toList, "D) d".toList, "Correct: A".toList,
        "Explanation: e".toList] :=
  pre_marker_lines_discarded _ _ (by decide)

/-!
Claim C8: totality of parse_quiz.  The only partial operations in the
loop are the three list subscripts; stepE models them with Option and is
shown to agree with the total step everywhere, so no input can raise.
-/

theorem stepE_eq_step (st : List QuizRec × QuizRec) (l : PyStr) :
    stepE st l = some (step st l) := by
  simp only [stepE, step]
  split_ifs with h0 h1 hf hA hB hC hD hCor hExp
  · rfl
  · obtain ⟨p, hp⟩ := Option.isSome_iff_exists.mp
      (splitFirst_isSome_of_mem (startsQ_colon_mem h1))
    simp [pySplit1, hp, afterColon1]
  · obtain ⟨p, hp⟩ := Option.isSome_iff_exists.mp
      (splitFirst_isSome_of_mem (startsQ_colon_mem h1))
    simp [pySplit1, hp, afterColon1]
  · rfl
  · rfl
  · rfl
  · rfl
  · have hmem : ':' ∈ pyStrip l := mem_of_isPrefixOf hCor (by decide)
    rw [get?_one_of_two (splitOnChar_length_ge hmem)]
    rfl
  · have hmem : ':' ∈ pyStrip l := mem_of_isPrefixOf hExp (by decide)
    obtain ⟨p, hp⟩ := Option.isSome_iff_exists.mp
      (splitFirst_isSome_of_mem hmem)
    simp [pySplit1, hp, afterColon1]
  · rfl

theorem foldE_eq (lines : List PyStr) :
    ∀ st, foldE st lines = some (List.foldl step st lines) := by
  induction lines with
  | nil => intro st; rfl
  | cons l ls ih =>
    intro st
    simp only [foldE, stepE_eq_step, List.foldl_cons]
    exact ih _

/-- C8: parse_quiz is total.  The exception-aware variant agrees with the
total function on every input, so no IndexError escapes; the empty
string parses to the empty sequence; input with no marker line at all
parses to the empty sequence; and only complete records ever appear in
the output, so malformed records are omitted rather than failing the
parse. -/
theorem parse_quiz_total_graceful :
    (∀ text : PyStr, parse_quizE text = some (parse_quiz text)) ∧
    parse_quiz [] = [] ∧
    (∀ lines : List PyStr, (∀ l ∈ lines, startsQ (pyStrip l) = false) →
      parseLines lines = []) ∧
    (∀ (lines : List PyStr) (q : QuizRec), q ∈ parseLines lines →
      isComplete q = true) := by
  refine ⟨?_, rfl, ?_, ?_⟩
  · intro text
    simp [parse_quizE, parse_quiz, parseLines, foldE_eq]
  · intro lines hl
    have h2 := parseLines_append_noQ lines [] hl
    rw [List.append_nil] at h2
    exact h2.trans rfl
  · intro lines q hq
    exact mem_parseLines_complete hq

/-- Witness for C8 on concrete inputs: a plain word as full input, a
marker-free two-line input, and a complete record of a parsed block. -/
theorem parse_quiz_total_graceful_witness :
    parse_quizE "hello".toList = some (parse_quiz "hello".toList) ∧
    parseLines ["just text".toList, "A) stray".toList] = [] ∧
    isComplete
      { question := some "q".toList, A := some "a".toList,
        B := some "b".toList, C := some "c".toList, D := some "d".toList,
        correct := some "A".toList, explanation := some "e".toList } = true :=
  ⟨parse_quiz_total_graceful.1 "hello".toList,
   parse_quiz_total_graceful.2.2.1 _ (by decide),
   parse_quiz_total_graceful.2.2.2
     ["Q1: q".toList, "A) a".toList, "B) b".toList, "C) c".toList,
       "D) d".toList, "Correct: A".toList, "Explanation: e".toList] _
     (by decide)⟩

/-!
Claim C9: the free-chat prompt window.
-/

theorem foldl_render_eq_flatten (l : List ChatMessage) :
    ∀ acc : PyStr, l.foldl (fun acc m => acc ++ renderMsg m) acc =
      acc ++ (l.map renderMsg).flatten := by
  induction l with
  | nil => intro acc; simp
  | cons m ms ih =>
    intro acc
    simp [List.foldl_cons, ih, List.append_assoc]

theorem isPrefixOf_append_self (p r : PyStr) : p.isPrefixOf (p ++ r) = true := by
  induction p with
  | nil => simp
  | cons c t ih => simp [List.isPrefixOf_cons₂, ih]

theorem containsSub_append (x needle y : PyStr) :
    containsSub needle (x ++ needle ++ y) = true := by
  induction x with
  | nil =>
    simp only [List.nil_append]
    cases h : needle ++ y with
    | nil =>
      have hn : needle = [] := (List.append_eq_nil.mp h).1
      simp [containsSub, hn]
    | cons c rest =>
      have h2 := isPrefixOf_append_self needle y
      rw [h] at h2
      simp [containsSub, h2]
  | cons c t ih =>
    have ih2 : containsSub needle (t ++ (needle ++ y)) = true := by
      simpa [List.append_assoc] using ih
    simp [containsSub, ih2]

/-- C9: for a history longer than ten messages, the free-chat prompt is
identical to the prompt built from only the last ten messages, each of
those ten messages' content occurs in the prompt, and any earlier
message whose content does not happen to occur in the prompt built from
the last ten is absent from the full prompt. -/
theorem chat_prompt_window10 (h : List ChatMessage) (hlen : 10 < h.length) :
    buildChatPrompt h = buildChatPrompt (h.drop (h.length - 10)) ∧
    (∀ m ∈ h.drop (h.length - 10),
      containsSub m.content (buildChatPrompt h) = true) ∧
    (∀ m ∈ h.take (h.length - 10),
      containsSub m.content (buildChatPrompt (h.drop (h.length - 10))) = false →
      containsSub m.content (buildChatPrompt h) = false) := by
  have hdd : (h.drop (h.length - 10)).drop
      ((h.drop (h.length - 10)).length - 10) = h.drop (h.length - 10) := by
    have h10 : (h.drop (h.length - 10)).length = 10 := by
      rw [List.length_drop]
      omega
    rw [h10]
    simp
  have ha : buildChatPrompt h = buildChatPrompt (h.drop (h.length - 10)) := by
    simp only [buildChatPrompt, conversationOf, hdd]
  refine ⟨ha, ?_, ?_⟩
  · intro m hm
    obtain ⟨s, t, hst⟩ := List.append_of_mem hm
    have hc : conversationOf h =
        (s.map renderMsg).flatten ++
          (roleLabelChat m ++ ": ".toList ++ m.content ++ "\n\n".toList) ++
          (t.map renderMsg).flatten := by
      simp only [conversationOf]
      rw [hst, foldl_render_eq_flatten]
      simp [renderMsg, List.append_assoc]
    have hb : buildChatPrompt h =
        (chatPromptHeader ++ (s.map renderMsg).flatten ++ roleLabelChat m ++
            ": ".toList) ++ m.content ++
          ("\n\n".toList ++ (t.map renderMsg).flatten ++
            "\nAssistant:".toList) := by
      simp only [buildChatPrompt, hc]
      simp [List.append_assoc]
    rw [hb]
    exact containsSub_append _ _ _
  · intro m _ habs
    rw [ha]
    exact habs

/-- Witness for C9 at an eleven-message history: the prompt equals the
prompt of the last ten messages, and the content of the last message
occurs in it. -/
theorem chat_prompt_window10_witness :
    buildChatPrompt
        [⟨"user".toList, "m0".toList⟩, ⟨"user".toList, "m1".toList⟩,
          ⟨"user".toList, "m2".toList⟩, ⟨"user".toList, "m3".toList⟩,
          ⟨"user".toList, "m4".toList⟩, ⟨"user".toList, "m5".toList⟩,
          ⟨"user".toList, "m6".toList⟩, ⟨"user".toList, "m7".toList⟩,
          ⟨"user".toList, "m8".toList⟩, ⟨"user".toList, "m9".toList⟩,
          ⟨"user".toList, "m10".toList⟩] =
      buildChatPrompt
        (([⟨"user".toList, "m0".toList⟩, ⟨"user".toList, "m1".toList⟩,
          ⟨"user".toList, "m2".toList⟩, ⟨"user".toList, "m3".toList⟩,
          ⟨"user".toList, "m4".toList⟩, ⟨"user".toList, "m5".toList⟩,
          ⟨"user".toList, "m6".toList⟩, ⟨"user".toList, "m7".toList⟩,
          ⟨"user".toList, "m8".toList⟩, ⟨"user".toList, "m9".toList⟩,
          ⟨"user".toList, "m10".toList⟩] : List ChatMessage).drop
          (([⟨"user".toList, "m0".toList⟩, ⟨"user".toList, "m1".toList⟩,
          ⟨"user".toList, "m2".toList⟩, ⟨"user".toList, "m3".toList⟩,
          ⟨"user".toList, "m4".toList⟩, ⟨"user".toList, "m5".toList⟩,
          ⟨"user".toList, "m6".toList⟩, ⟨"user".toList, "m7".toList⟩,
          ⟨"user".toList, "m8".toList⟩, ⟨"user".toList, "m9".toList⟩,
          ⟨"user".toList, "m10".toList⟩] : List ChatMessage).length - 10)) ∧
    containsSub "m10".toList
      (buildChatPrompt
        [⟨"user".toList, "m0".toList⟩, ⟨"user".toList, "m1".toList⟩,
          ⟨"user".toList, "m2".toList⟩, ⟨"user".toList, "m3".toList⟩,
          ⟨"user".toList, "m4".toList⟩, ⟨"user".toList, "m5".toList⟩,
          ⟨"user".toList, "m6".toList⟩, ⟨"user".toList, "m7".toList⟩,
          ⟨"user".toList, "m8".toList⟩, ⟨"user".toList, "m9".toList⟩,
          ⟨"user".toList, "m10".toList⟩]) = true :=
  ⟨(chat_prompt_window10 _ (by decide)).1,
   (chat_prompt_window10 _ (by decide)).2.1 ⟨"user".toList, "m10".toList⟩
     (by decide)⟩
